import Mathlib

/-!
Verification development for the bin-collection-day service.

The embedding follows the TypeScript sources:
  * src/models (BinCollectionData, PropertyData): record types;
  * src/handlers/LaunchRequestHandler.ts: the next-collection resolver
    findNextBinCollectionData, in two revisions (the older revision carries
    a refresh counter and a refresh side channel, the current one does not),
    and matchesExistingDate;
  * src/handlers/dao/DynamoDBDao.ts: the freshness predicate isBinDataStale
    and its helper collectionIsTodayOrLater;
  * the CheshireEastClient revision holding parseBinResponse with the
    30 match cap and the drop-last-3 grouping loop, and parseBinType.

Dates: every consumer of the collectionDate field immediately parses it with
moment using the fixed format DD/MM/YYYY and compares at day granularity
(isSameOrAfter with day granularity; isSame of two midnight moments). We
embed the parsed day-granular calendar date as a natural day index, so that
the moment comparisons become order and equality on Nat. The schedule parser
is embedded over the list of regex capture fragments its extraction loop
produces, since its logic past extraction is pure list processing.
-/

/-- Record type of src/models/BinCollectionData.ts, with the collectionDate
string abstracted to its day-granular parsed value (a day index). -/
structure BinCollectionData where
  collectionDay : String
  collectionDate : Nat
  binType : String
  deriving DecidableEq, Inhabited, Repr

/-- Embeds moment(d, BIN_DATE_FORMAT).isSameOrAfter(now, withDayGranularity):
the entry day is the same as or after the day of now. -/
def isSameOrAfterDay (d now : Nat) : Bool :=
  now ≤ d

/-- Function matchesExistingDate of LaunchRequestHandler.ts: moment isSame on
the two parsed dates (both are midnight values, so day equality). -/
def matchesExistingDate (existingDate newDate : Nat) : Bool :=
  existingDate == newDate

/-- Loop body of findNextBinCollectionData (current revision, second copy in
LaunchRequestHandler.ts): scan the schedule in list order, skip entries dated
before now; a first qualifying Black entry is returned alone; a first
qualifying non-Black entry is kept and the scan continues; once one entry is
kept, the next qualifying entry is appended exactly when its date matches,
and the scan stops either way. -/
def findLoop (now : Nat) : List BinCollectionData → List BinCollectionData → List BinCollectionData
  | acc, [] => acc
  | acc, item :: rest =>
    if isSameOrAfterDay item.collectionDate now then
      if acc.length == 1 then
        if matchesExistingDate (acc.headI.collectionDate) item.collectionDate then
          acc ++ [item]
        else
          acc
      else if acc.length == 0 then
        if item.binType == "Black" then
          acc ++ [item]
        else
          findLoop now (acc ++ [item]) rest
      else
        findLoop now acc rest
    else
      findLoop now acc rest

/-- Function findNextBinCollectionData, current revision. When the scan ends
empty the source calls createBinCollectionException() but discards the result
without throwing it, so the function still returns the empty array; the
embedding therefore is a total function into the list of entries. -/
def findNextBinCollectionData (now : Nat) (binCollectionData : List BinCollectionData) : List BinCollectionData :=
  findLoop now [] binCollectionData

/-- Refresh side channel of the older revision of findNextBinCollectionData:
the refreshed flag of the source, plus a count of how many times the
refreshBinData call was issued (each issue is one fire-and-forget signal). -/
structure RefreshState where
  refreshed : Bool
  refreshCalls : Nat
  deriving DecidableEq, Repr

/-- Loop body of the older revision of findNextBinCollectionData (first copy
in LaunchRequestHandler.ts, the one with counter and refreshed): identical
selection logic, and in addition, at every qualifying entry reached, if the
schedule length minus the running counter is at most 3 and no refresh was
issued yet, refreshBinData is invoked and the refreshed flag set. The counter
starts at 1 and is incremented only when a qualifying iteration completes
without breaking out of the loop. -/
def findLoopV1 (len now : Nat) : List BinCollectionData → List BinCollectionData → Nat → RefreshState → List BinCollectionData × RefreshState
  | acc, [], _counter, st => (acc, st)
  | acc, item :: rest, counter, st =>
    if isSameOrAfterDay item.collectionDate now then
      let st' := if len - counter ≤ 3 ∧ st.refreshed = false then
          { refreshed := true, refreshCalls := st.refreshCalls + 1 }
        else st
      if acc.length == 1 then
        if matchesExistingDate (acc.headI.collectionDate) item.collectionDate then
          (acc ++ [item], st')
        else
          (acc, st')
      else if acc.length == 0 then
        if item.binType == "Black" then
          (acc ++ [item], st')
        else
          findLoopV1 len now (acc ++ [item]) rest (counter + 1) st'
      else
        findLoopV1 len now acc rest (counter + 1) st'
    else
      findLoopV1 len now acc rest counter st

/-- Older revision of findNextBinCollectionData: counter starts at 1, the
refreshed flag at false, and no refresh call has been issued yet. Returns the
selected entries together with the refresh side channel. -/
def findNextBinCollectionDataV1 (now : Nat) (binCollectionData : List BinCollectionData) : List BinCollectionData × RefreshState :=
  findLoopV1 binCollectionData.length now [] binCollectionData 1 ⟨false, 0⟩

/-- Method collectionIsTodayOrLater of DynamoDBDao.ts: the entry date is the
same day as today or later. -/
def collectionIsTodayOrLater (today : Nat) (item : BinCollectionData) : Bool :=
  isSameOrAfterDay item.collectionDate today

/-- Method isBinDataStale of DynamoDBDao.ts. The filter callback in the
source is an arrow function with a braced block body that evaluates
collectionIsTodayOrLater but has no return statement, so the callback yields
undefined, which is falsy: the embedding computes the predicate, discards it,
and returns false, exactly as the JavaScript semantics does. -/
def isBinDataStale (today : Nat) (binCollectionData : List BinCollectionData) : Bool :=
  let filteredCollectionData := binCollectionData.filter (fun item =>
    let _ := collectionIsTodayOrLater today item
    false)
  if filteredCollectionData.length ≤ 3 then true else false

/-- Record produced by parseBinResponse: at the parser stage all three fields
of the BinCollectionData constructor are raw strings taken from the extracted
markup fragments (day label, date string, normalized bin type). -/
structure RawBinCollectionData where
  collectionDay : String
  collectionDate : String
  binType : String
  deriving DecidableEq, Repr

/-- Method parseBinType of CheshireEastClient: strip the boilerplate prefix
of the description, then a closed case-sensitive mapping with Black as the
default for anything unrecognized. -/
def parseBinType (binTypeString : String) : String :=
  let binType := String.replace binTypeString "Empty Standard " ""
  if binType == "Garden Waste" then "Green"
  else if binType == "Mixed Recycling" then "Silver"
  else "Black"

/-- Extraction loop of parseBinResponse: successive regex matches of the
BIN_COLLECTION_DETAIL_PATTERN are pushed while a match exists and the counter
stays below 30, so the first 30 matches of the input are kept. The embedding
takes the full match list of the raw markup as input. -/
def extractFragments (allMatches : List String) : List String :=
  allMatches.take 30

/-- Grouping loop of parseBinResponse: while the index is below the fragment
count minus 3, consume three fragments as one record and advance by 3. With
JavaScript numbers the bound can be negative, in which case the loop body
never runs; Nat subtraction truncates to 0 and gives the same behavior. -/
def groupLoop (matchList : List String) (i : Nat) : List RawBinCollectionData :=
  if h : i < matchList.length - 3 then
    ⟨matchList.getD i "", matchList.getD (i + 1) "", parseBinType (matchList.getD (i + 2) "")⟩
      :: groupLoop matchList (i + 3)
  else
    []
termination_by matchList.length - i
decreasing_by simp_wf; omega

/-- Error message of createBinCollectionException, the only failure the
parser can raise. -/
def binCollectionExceptionMessage : String :=
  String.append "Sorry, we were unable to find your bin collection details. "
    "Please check the address assigned to your Alexa device is a valid Cheshire East address."

/-- Method parseBinResponse of the CheshireEastClient revision with the
30 match cap: extract at most 30 fragments, throw the bin collection
exception when none were extracted, otherwise run the grouping loop from
index 0. -/
def parseBinResponse (allMatches : List String) : Except String (List RawBinCollectionData) :=
  let matchList := extractFragments allMatches
  if matchList.length = 0 then
    Except.error binCollectionExceptionMessage
  else
    Except.ok (groupLoop matchList 0)

/-- Fragment list standing for a well-formed response with two genuine
entries and the trailing noise block of three fragments. -/
def demoFragments : List String :=
  ["Tuesday", "07/01/2020", "Empty Standard Garden Waste",
   "Tuesday", "07/01/2020", "Empty Standard Mixed Recycling"]

/-- Predicate of the resolver output shape: when the result is a two-entry
list, both entries carry the same calendar date; any other shape is
accepted. -/
def sameDatePair : List BinCollectionData → Bool
  | [a, b] => a.collectionDate == b.collectionDate
  | _ => true

/-- Green entry due on day 2. -/
def greenD2 : BinCollectionData := ⟨"Tuesday", 2, "Green"⟩

/-- Silver entry due on day 2. -/
def silverD2 : BinCollectionData := ⟨"Tuesday", 2, "Silver"⟩

/-- Black entry due on day 2, the same day as the green and silver ones. -/
def blackD2 : BinCollectionData := ⟨"Tuesday", 2, "Black"⟩

/-- Black entry due on day 9. -/
def blackD9 : BinCollectionData := ⟨"Wednesday", 9, "Black"⟩

/-- Schedule of four entries, all dated on day 1 or later. -/
def staleDemoSchedule : List BinCollectionData :=
  [⟨"Monday", 1, "Green"⟩, ⟨"Tuesday", 2, "Silver"⟩,
   ⟨"Wednesday", 3, "Black"⟩, ⟨"Thursday", 4, "Green"⟩]

/-- Schedule of five entries whose only qualifying entry, seen from day 10,
sits at the last position. -/
def latePickSchedule : List BinCollectionData :=
  [⟨"Monday", 1, "Green"⟩, ⟨"Tuesday", 2, "Silver"⟩, ⟨"Wednesday", 3, "Black"⟩,
   ⟨"Thursday", 4, "Green"⟩, ⟨"Friday", 20, "Green"⟩]

/-- Schedule of a single qualifying entry. -/
def soonSchedule : List BinCollectionData :=
  [⟨"Friday", 5, "Green"⟩]

theorem groupLoop_length (ms : List String) (i : Nat) :
    (groupLoop ms i).length = (ms.length - i - 1) / 3 := by
  induction i using groupLoop.induct ms with
  | case1 i h ih =>
      rw [groupLoop, dif_pos h, List.length_cons, ih]
      omega
  | case2 i h =>
      rw [groupLoop, dif_neg h]
      simp only [List.length_nil]
      omega

theorem parseBinResponse_eq (allMatches : List String) :
    parseBinResponse allMatches =
      if (extractFragments allMatches).length = 0 then
        Except.error binCollectionExceptionMessage
      else
        Except.ok (groupLoop (extractFragments allMatches) 0) :=
  rfl

theorem groupLoop_eq_nil (ms : List String) (h : ms.length ≤ 3) :
    groupLoop ms 0 = [] := by
  rw [groupLoop, dif_neg]
  omega

/-- C3: for well-formed markup, here taken as a markup whose extracted
fragment count is a nonzero multiple of 3 (the source emits whole
day-date-description triples), the number of records parseBinResponse
returns is the extracted fragment count minus 3, divided by 3, rounded
down. -/
theorem parse_length_wellformed (allMatches : List String)
    (h3 : allMatches.length % 3 = 0) (h0 : allMatches ≠ []) :
    ∃ l, parseBinResponse allMatches = Except.ok l ∧
      l.length = ((extractFragments allMatches).length - 3) / 3 := by
  have hpos : 0 < allMatches.length := List.length_pos.mpr h0
  have hlen : (extractFragments allMatches).length = min 30 allMatches.length := by
    unfold extractFragments
    exact List.length_take 30 allMatches
  refine ⟨groupLoop (extractFragments allMatches) 0, ?_, ?_⟩
  · rw [parseBinResponse_eq, if_neg]
    omega
  · rw [groupLoop_length]
    omega

theorem parse_length_wellformed_witness :
    ∃ l, parseBinResponse demoFragments = Except.ok l ∧
      l.length = ((extractFragments demoFragments).length - 3) / 3 :=
  parse_length_wellformed demoFragments (by decide) (by decide)

/-- C4 counterexample: a markup with a single extracted fragment, which is
fewer than 3, does not make parseBinResponse fail: it returns an empty
record list instead. -/
theorem parse_single_fragment_no_failure :
    (extractFragments ["Tuesday"]).length = 1 ∧
      parseBinResponse ["Tuesday"] = Except.ok [] := by
  constructor
  · rfl
  · rw [parseBinResponse_eq]
    have h1 : extractFragments ["Tuesday"] = ["Tuesday"] := rfl
    rw [h1, if_neg (by simp), groupLoop_eq_nil _ (by simp)]

/-- C4 amended: parseBinResponse fails with the parse error exactly when
zero fragments are extracted; for one or two fragments it succeeds with an
empty record list. -/
theorem parse_few_fragments (ms : List String) (h : ms.length < 3) :
    parseBinResponse ms =
      if ms.isEmpty then Except.error binCollectionExceptionMessage
      else Except.ok [] := by
  have ht : extractFragments ms = ms := by
    unfold extractFragments
    exact List.take_of_length_le (by omega)
  rw [parseBinResponse_eq, ht]
  rcases ms with _ | ⟨a, tl⟩
  · rfl
  · rw [if_neg (by simp), groupLoop_eq_nil _ (by simp only [List.length_cons] at h ⊢; omega)]
    rfl

theorem parse_few_fragments_witness :
    parseBinResponse ["Tuesday", "07/01/2020"] = Except.ok [] := by
  simpa using parse_few_fragments ["Tuesday", "07/01/2020"] (by decide)

/-- C10: the extraction loop keeps at most 30 fragments, and whenever
parseBinResponse succeeds, its output holds at most 9 records. -/
theorem parse_output_bound (allMatches : List String) :
    (extractFragments allMatches).length ≤ 30 ∧
      ((parseBinResponse allMatches).toOption.map List.length).getD 0 ≤ 9 := by
  have hlen : (extractFragments allMatches).length = min 30 allMatches.length := by
    unfold extractFragments
    exact List.length_take 30 allMatches
  constructor
  · omega
  · rw [parseBinResponse_eq]
    by_cases h : (extractFragments allMatches).length = 0
    · rw [if_pos h]
      simp [Except.toOption]
    · rw [if_neg h]
      simp only [Except.toOption, Option.map, Option.getD]
      rw [groupLoop_length]
      omega

theorem findLoop_one_eq (now : Nat) (e : BinCollectionData) (rest : List BinCollectionData) :
    findLoop now [e] rest =
      match rest.find? (fun x => isSameOrAfterDay x.collectionDate now) with
      | none => [e]
      | some f =>
          if matchesExistingDate e.collectionDate f.collectionDate then [e, f] else [e] := by
  induction rest with
  | nil => rfl
  | cons item rest ih =>
      by_cases hq : isSameOrAfterDay item.collectionDate now = true
      · rw [List.find?_cons_of_pos rest hq]
        simp only [findLoop, hq, if_true, List.length_cons, List.length_nil, List.headI]
        by_cases hm : matchesExistingDate e.collectionDate item.collectionDate = true
        · simp [hm]
        · simp [hm]
      · rw [List.find?_cons_of_neg rest (by simpa using hq)]
        simp only [findLoop, hq]
        simpa using ih

theorem findLoop_cons_qual_black (now : Nat) (item : BinCollectionData)
    (l : List BinCollectionData) (hq : isSameOrAfterDay item.collectionDate now = true)
    (hb : (item.binType == "Black") = true) :
    findLoop now [] (item :: l) = [item] := by
  simp [findLoop, hq, hb]

theorem findLoop_cons_qual_nonblack (now : Nat) (item : BinCollectionData)
    (l : List BinCollectionData) (hq : isSameOrAfterDay item.collectionDate now = true)
    (hb : (item.binType == "Black") = false) :
    findLoop now [] (item :: l) = findLoop now [item] l := by
  simp [findLoop, hq, hb]

theorem findLoop_cons_notqual (now : Nat) (item : BinCollectionData)
    (l : List BinCollectionData) (hq : isSameOrAfterDay item.collectionDate now = false) :
    findLoop now [] (item :: l) = findLoop now [] l := by
  simp [findLoop, hq]

/-- C6: the first returned entry is always the first entry of the schedule,
in its given list order, whose date is the same day as now or later; entries
dated strictly before now are skipped, and when no entry qualifies the
result is empty, so its head is none exactly as find? is. -/
theorem head_eq_first_qualifying (now : Nat) (l : List BinCollectionData) :
    (findNextBinCollectionData now l).head? =
      l.find? (fun e => isSameOrAfterDay e.collectionDate now) := by
  unfold findNextBinCollectionData
  induction l with
  | nil => rfl
  | cons item l ih =>
      by_cases hq : isSameOrAfterDay item.collectionDate now = true
      · rw [List.find?_cons_of_pos l hq]
        by_cases hb : (item.binType == "Black") = true
        · rw [findLoop_cons_qual_black now item l hq hb]
          rfl
        · rw [findLoop_cons_qual_nonblack now item l hq (by simpa using hb)]
          rw [findLoop_one_eq]
          rcases hf : l.find? (fun x => isSameOrAfterDay x.collectionDate now) with _ | f
          · rw [hf]
            rfl
          · rw [hf]
            by_cases hm : matchesExistingDate item.collectionDate f.collectionDate = true
            · simp [hm]
            · simp [hm]
      · rw [List.find?_cons_of_neg l (by simpa using hq)]
        rw [findLoop_cons_notqual now item l (by simpa using hq)]
        exact ih

/-- C8: the resolver returns at most two entries, and a two-entry result
always has both entries on the same calendar date. -/
theorem result_at_most_two_same_date (now : Nat) (l : List BinCollectionData) :
    (findNextBinCollectionData now l).length ≤ 2 ∧
      sameDatePair (findNextBinCollectionData now l) = true := by
  unfold findNextBinCollectionData
  induction l with
  | nil => exact ⟨by simp [findLoop], rfl⟩
  | cons item l ih =>
      by_cases hq : isSameOrAfterDay item.collectionDate now = true
      · by_cases hb : (item.binType == "Black") = true
        · rw [findLoop_cons_qual_black now item l hq hb]
          exact ⟨by simp, rfl⟩
        · rw [findLoop_cons_qual_nonblack now item l hq (by simpa using hb)]
          rw [findLoop_one_eq]
          rcases hf : l.find? (fun x => isSameOrAfterDay x.collectionDate now) with _ | f
          · rw [hf]
            exact ⟨by simp, rfl⟩
          · rw [hf]
            by_cases hm : matchesExistingDate item.collectionDate f.collectionDate = true
            · have hd : item.collectionDate = f.collectionDate := by
                simpa [matchesExistingDate] using hm
              refine ⟨by simp [hm], ?_⟩
              simp [sameDatePair, matchesExistingDate, hd]
            · exact ⟨by simp [hm], by simp [hm, sameDatePair]⟩
      · rw [findLoop_cons_notqual now item l (by simpa using hq)]
        exact ih

/-- C1: the DAO filter callback never returns its predicate value, so the
stale check sees an empty filtered list and answers true even for a schedule
with four entries dated today or later, where the specified rule answers
false. -/
theorem isBinDataStale_ignores_dates :
    staleDemoSchedule.countP (fun item => collectionIsTodayOrLater 0 item) = 4 ∧
      isBinDataStale 0 staleDemoSchedule = true := by
  constructor
  · decide
  · decide

/-- C2 counterexample: with a green entry and a black entry on the same
qualifying day, the resolver returns a two-entry result that contains a
Black entry. -/
theorem pair_with_black_exists :
    (findNextBinCollectionData 0 [greenD2, blackD2]).length = 2 ∧
      ((findNextBinCollectionData 0 [greenD2, blackD2]).map
        BinCollectionData.binType).contains "Black" = true := by
  constructor
  · decide
  · decide

/-- C2 amended: a two-entry result never has a Black entry in first
position; the second entry of a pair is appended on date match alone and may
be Black. -/
theorem pair_fst_not_black (now : Nat) (l : List BinCollectionData)
    (a b : BinCollectionData)
    (h : findNextBinCollectionData now l = [a, b]) : a.binType ≠ "Black" := by
  unfold findNextBinCollectionData at h
  induction l with
  | nil => simp [findLoop] at h
  | cons item l ih =>
      by_cases hq : isSameOrAfterDay item.collectionDate now = true
      · by_cases hb : (item.binType == "Black") = true
        · rw [findLoop_cons_qual_black now item l hq hb] at h
          simp at h
        · rw [findLoop_cons_qual_nonblack now item l hq (by simpa using hb)] at h
          rw [findLoop_one_eq] at h
          rcases hf : l.find? (fun x => isSameOrAfterDay x.collectionDate now) with _ | f
          · rw [hf] at h
            simp at h
          · rw [hf] at h
            by_cases hm : matchesExistingDate item.collectionDate f.collectionDate = true
            · simp only [hm, if_true] at h
              have ha : a = item := (List.cons.inj h).1.symm
              subst ha
              simpa using hb
            · simp [hm] at h
      · rw [findLoop_cons_notqual now item l (by simpa using hq)] at h
        exact ih h

theorem pair_fst_not_black_witness : greenD2.binType ≠ "Black" :=
  pair_fst_not_black 0 [greenD2, silverD2] greenD2 silverD2 rfl

/-- C5: with every entry dated strictly before now, the resolver returns the
empty list; the bin collection exception is constructed on this path but
never thrown, so no failure reaches the caller and the embedded function is
total. -/
theorem all_past_returns_empty :
    findNextBinCollectionData 5 [⟨"Monday", 1, "Black"⟩] = [] := by
  decide

/-- C7: when the schedule splits into a non-qualifying front, a first
qualifying non-Black entry e, and a tail whose first qualifying entry is f,
the result pairs e with f exactly when their dates are the same calendar
day, and is the single entry e otherwise. -/
theorem pair_on_equal_dates (now : Nat) (pre post : List BinCollectionData)
    (e f : BinCollectionData)
    (hpre : ∀ x ∈ pre, isSameOrAfterDay x.collectionDate now = false)
    (he : isSameOrAfterDay e.collectionDate now = true)
    (hnb : e.binType ≠ "Black")
    (hf : post.find? (fun x => isSameOrAfterDay x.collectionDate now) = some f) :
    findNextBinCollectionData now (pre ++ e :: post) =
      if e.collectionDate = f.collectionDate then [e, f] else [e] := by
  unfold findNextBinCollectionData
  induction pre with
  | nil =>
      simp only [List.nil_append]
      rw [findLoop_cons_qual_nonblack now e post he (by simpa using hnb)]
      rw [findLoop_one_eq, hf]
      by_cases hd : e.collectionDate = f.collectionDate
      · simp [matchesExistingDate, hd]
      · simp [matchesExistingDate, hd]
  | cons x pre ih =>
      have hx := hpre x (by simp)
      simp only [List.cons_append]
      rw [findLoop_cons_notqual now x _ hx]
      exact ih (fun y hy => hpre y (by simp [hy]))

theorem pair_on_equal_dates_witness :
    findNextBinCollectionData 0 [greenD2, silverD2, blackD9] = [greenD2, silverD2] := by
  have h := pair_on_equal_dates 0 [] [silverD2, blackD9] greenD2 silverD2
    (by simp) (by decide) (by decide) (by decide)
  simpa [greenD2, silverD2] using h

theorem findLoopV1_fst (len now : Nat) (l : List BinCollectionData) :
    ∀ (acc : List BinCollectionData) (counter : Nat) (st : RefreshState),
      (findLoopV1 len now acc l counter st).1 = findLoop now acc l := by
  induction l with
  | nil => intro acc counter st; rfl
  | cons item rest ih =>
      intro acc counter st
      by_cases hq : isSameOrAfterDay item.collectionDate now = true
      · by_cases h1 : (acc.length == 1) = true
        · by_cases hm : matchesExistingDate acc.headI.collectionDate item.collectionDate = true
          · simp [findLoopV1, findLoop, hq, h1, hm]
          · simp [findLoopV1, findLoop, hq, h1, hm]
        · by_cases h0 : (acc.length == 0) = true
          · by_cases hbk : (item.binType == "Black") = true
            · simp [findLoopV1, findLoop, hq, h1, h0, hbk]
            · simp [findLoopV1, findLoop, hq, h1, h0, hbk, ih]
          · simp [findLoopV1, findLoop, hq, h1, h0, ih]
      · simp [findLoopV1, findLoop, hq, ih]

theorem findLoopV1_frozen (len now : Nat) (l : List BinCollectionData) :
    ∀ (acc : List BinCollectionData) (counter : Nat) (st : RefreshState),
      st.refreshed = true → (findLoopV1 len now acc l counter st).2 = st := by
  induction l with
  | nil => intro acc counter st _; rfl
  | cons item rest ih =>
      intro acc counter st hst
      by_cases hq : isSameOrAfterDay item.collectionDate now = true
      · have hc : ¬(len - counter ≤ 3 ∧ st.refreshed = false) := by
          rintro ⟨-, hr⟩
          rw [hst] at hr
          cases hr
        have hst' :
            (if len - counter ≤ 3 ∧ st.refreshed = false then
              ({ refreshed := true, refreshCalls := st.refreshCalls + 1 } : RefreshState)
            else st) = st := if_neg hc
        by_cases h1 : (acc.length == 1) = true
        · by_cases hm : matchesExistingDate acc.headI.collectionDate item.collectionDate = true
          · simp only [findLoopV1, hq, if_true, h1, hm, hst']
          · simp only [findLoopV1, hq, if_true, h1, hm, Bool.false_eq_true, if_false, hst']
        · by_cases h0 : (acc.length == 0) = true
          · by_cases hbk : (item.binType == "Black") = true
            · simp only [findLoopV1, hq, if_true, h1, Bool.false_eq_true, if_false, h0, hbk,
                hst']
            · simp only [findLoopV1, hq, if_true, h1, Bool.false_eq_true, if_false, h0, hbk,
                hst']
              exact ih _ _ _ hst
          · simp only [findLoopV1, hq, if_true, h1, Bool.false_eq_true, if_false, h0, hst']
            exact ih _ _ _ hst
      · simp only [findLoopV1, hq, Bool.false_eq_true, if_false]
        exact ih _ _ _ hst

theorem findLoopV1_calls_le (len now : Nat) (l : List BinCollectionData) :
    ∀ (acc : List BinCollectionData) (counter : Nat) (st : RefreshState),
      (findLoopV1 len now acc l counter st).2.refreshCalls ≤
        st.refreshCalls + (if st.refreshed = true then 0 else 1) := by
  induction l with
  | nil =>
      intro acc counter st
      simp only [findLoopV1]
      split <;> omega
  | cons item rest ih =>
      intro acc counter st
      by_cases hq : isSameOrAfterDay item.collectionDate now = true
      · by_cases hcond : len - counter ≤ 3 ∧ st.refreshed = false
        · have hst' :
              (if len - counter ≤ 3 ∧ st.refreshed = false then
                ({ refreshed := true, refreshCalls := st.refreshCalls + 1 } : RefreshState)
              else st) = ⟨true, st.refreshCalls + 1⟩ := if_pos hcond
          have hrf : st.refreshed = false := hcond.2
          by_cases h1 : (acc.length == 1) = true
          · by_cases hm : matchesExistingDate acc.headI.collectionDate item.collectionDate = true
            · simp only [findLoopV1, hq, if_true, h1, hm, hst']
              simp [hrf]
            · simp only [findLoopV1, hq, if_true, h1, hm, Bool.false_eq_true, if_false, hst']
              simp [hrf]
          · by_cases h0 : (acc.length == 0) = true
            · by_cases hbk : (item.binType == "Black") = true
              · simp only [findLoopV1, hq, if_true, h1, Bool.false_eq_true, if_false, h0, hbk,
                  hst']
                simp [hrf]
              · simp only [findLoopV1, hq, if_true, h1, Bool.false_eq_true, if_false, h0, hbk,
                  hst']
                exact le_trans (ih _ _ _) (by simp [hrf])
            · simp only [findLoopV1, hq, if_true, h1, Bool.false_eq_true, if_false, h0, hst']
              exact le_trans (ih _ _ _) (by simp [hrf])
        · have hst' :
              (if len - counter ≤ 3 ∧ st.refreshed = false then
                ({ refreshed := true, refreshCalls := st.refreshCalls + 1 } : RefreshState)
              else st) = st := if_neg hcond
          by_cases h1 : (acc.length == 1) = true
          · by_cases hm : matchesExistingDate acc.headI.collectionDate item.collectionDate = true
            · simp only [findLoopV1, hq, if_true, h1, hm, hst']
              exact Nat.le_add_right _ _
            · simp only [findLoopV1, hq, if_true, h1, hm, Bool.false_eq_true, if_false, hst']
              exact Nat.le_add_right _ _
          · by_cases h0 : (acc.length == 0) = true
            · by_cases hbk : (item.binType == "Black") = true
              · simp only [findLoopV1, hq, if_true, h1, Bool.false_eq_true, if_false, h0, hbk,
                  hst']
                exact Nat.le_add_right _ _
              · simp only [findLoopV1, hq, if_true, h1, Bool.false_eq_true, if_false, h0, hbk,
                  hst']
                exact ih _ _ _
            · simp only [findLoopV1, hq, if_true, h1, Bool.false_eq_true, if_false, h0, hst']
              exact ih _ _ _
      · simp only [findLoopV1, hq, Bool.false_eq_true, if_false]
        exact ih _ _ _

theorem findLoopV1_fire (len now : Nat) (l : List BinCollectionData) (hlen : len ≤ 4) :
    (∃ e ∈ l, isSameOrAfterDay e.collectionDate now = true) →
      (findLoopV1 len now [] l 1 ⟨false, 0⟩).2.refreshCalls = 1 := by
  induction l with
  | nil =>
      rintro ⟨e, he, -⟩
      cases he
  | cons item rest ih =>
      rintro ⟨e, he, hqe⟩
      by_cases hq : isSameOrAfterDay item.collectionDate now = true
      · have h3 : len - 1 ≤ 3 := by omega
        have e1 : ((([] : List BinCollectionData)).length == 1) = false := rfl
        have e0 : ((([] : List BinCollectionData)).length == 0) = true := rfl
        by_cases hbk : (item.binType == "Black") = true
        · simp only [findLoopV1, hq, if_true, e1, Bool.false_eq_true, if_false, e0, hbk]
          rw [if_pos (⟨h3, trivial⟩ : len - 1 ≤ 3 ∧ True)]
        · simp only [findLoopV1, hq, if_true, e1, Bool.false_eq_true, if_false, e0, hbk]
          rw [if_pos (⟨h3, trivial⟩ : len - 1 ≤ 3 ∧ True)]
          rw [findLoopV1_frozen len now rest ([] ++ [item]) (1 + 1) ⟨true, 0 + 1⟩ rfl]
      · have hq' : ∃ e ∈ rest, isSameOrAfterDay e.collectionDate now = true := by
          rcases List.mem_cons.mp he with rfl | hmem
          · exact absurd hqe hq
          · exact ⟨e, hmem, hqe⟩
        simp only [findLoopV1, hq, Bool.false_eq_true, if_false]
        exact ih hq'

/-- C9 counterexample: in latePickSchedule seen from day 10, only one entry
remains from the position of the first qualifying entry to the end, yet the
older resolver issues no refresh call, because its trigger compares the
schedule length against a running count of qualifying entries rather than
against that position. -/
theorem refresh_skipped_despite_low_tail :
    latePickSchedule.findIdx (fun e => isSameOrAfterDay e.collectionDate 10) = 4 ∧
      latePickSchedule.length -
        latePickSchedule.findIdx (fun e => isSameOrAfterDay e.collectionDate 10) ≤ 3 ∧
      (findNextBinCollectionDataV1 10 latePickSchedule).2.refreshCalls = 0 := by
  refine ⟨by decide, by decide, by decide⟩

/-- C9 amended: the older resolver issues the refresh signal at most once
per call; issuing it does not alter the returned entries, which always equal
the refresh-free resolver result; and the trigger condition is based on the
schedule length against a running count of processed qualifying entries, so
in particular any schedule of at most 4 entries holding a qualifying entry
gets the signal exactly once. -/
theorem refresh_at_most_once_and_pure (now : Nat) (l : List BinCollectionData) :
    (findNextBinCollectionDataV1 now l).2.refreshCalls ≤ 1 ∧
      (findNextBinCollectionDataV1 now l).1 = findNextBinCollectionData now l ∧
      ((∃ e ∈ l, isSameOrAfterDay e.collectionDate now = true) → l.length ≤ 4 →
        (findNextBinCollectionDataV1 now l).2.refreshCalls = 1) := by
  refine ⟨?_, ?_, ?_⟩
  · have h := findLoopV1_calls_le l.length now l [] 1 ⟨false, 0⟩
    simpa [findNextBinCollectionDataV1] using h
  · exact findLoopV1_fst l.length now l [] 1 ⟨false, 0⟩
  · intro hq hlen
    exact findLoopV1_fire l.length now l hlen hq

theorem refresh_at_most_once_and_pure_witness :
    (findNextBinCollectionDataV1 0 soonSchedule).2.refreshCalls ≤ 1 ∧
      (findNextBinCollectionDataV1 0 soonSchedule).1 =
        findNextBinCollectionData 0 soonSchedule ∧
      (findNextBinCollectionDataV1 0 soonSchedule).2.refreshCalls = 1 :=
  ⟨(refresh_at_most_once_and_pure 0 soonSchedule).1,
   (refresh_at_most_once_and_pure 0 soonSchedule).2.1,
   (refresh_at_most_once_and_pure 0 soonSchedule).2.2
     ⟨⟨"Friday", 5, "Green"⟩, by decide, by decide⟩ (by decide)⟩
